import Mathlib

/-!
Shallow embedding of the Sheffield COVID-19 dashboard ingestion pipeline
(`ingest.py`, plus the module-level fetch of `gov_data.py`).

Python exceptions are modelled by `Except PyErr`; heterogeneous Python
lists of strings and ints by `List Value`; `None` cells by `Option String`.
External library behaviour (`int()`, `dateutil.parser.parse`, `requests`,
`html5lib`, `np.bincount`) is modelled faithfully on the input shapes this
pipeline exercises, as documented on each definition.
-/

/-- The Python exception kinds the pipeline can surface.  `assertionError`
is the `SchemaError` of the spec; `valueError` and `parserError` together
are its `FormatError`. -/
inductive PyErr where
  | assertionError
  | typeError
  | attributeError
  | indexError
  | valueError
  | parserError
  | runtimeError
  | requestException
deriving DecidableEq

/-- A cell value of a transformed Python row: `str` or `int`. -/
inductive Value where
  | VStr (s : String)
  | VInt (n : Int)
deriving DecidableEq

/-- Does the pattern occur at the start of the text?  (List-of-char level.) -/
def startsWithChars : List Char → List Char → Bool
  | [], _ => true
  | _ :: _, [] => false
  | a :: as, b :: bs => decide (a = b) && startsWithChars as bs

/-- Does the pattern occur anywhere in the text?  (List-of-char level.) -/
def occursIn (needle : List Char) : List Char → Bool
  | [] => startsWithChars needle []
  | c :: cs => startsWithChars needle (c :: cs) || occursIn needle cs

/-- Python's substring test `needle in hay` on `str`. -/
def pyInStr (needle hay : String) : Bool :=
  occursIn needle.toList hay.toList

/-- Python's `s.endswith('*')`: the last character is `'*'`. -/
def endsWithStar (s : String) : Bool :=
  match s.toList.getLast? with
  | some c => decide (c = '*')
  | none => false

/-- Python's `s[:-1]`: drop the final character. -/
def strDropLast (s : String) : String :=
  String.mk s.toList.dropLast

/-- The per-cell step of `validate`'s list comprehension:
`cell_value[:-1] if cell_value.endswith('*') else cell_value`. -/
def pyStrip (s : String) : String :=
  if endsWithStar s then strDropLast s else s

/-- Numeric value of a decimal digit character. -/
def digitVal (c : Char) : Nat := c.toNat - 48

/-- Tail of Python `int()` digit parsing: decimal digits, where a single
underscore may stand between two digits (CPython's grammar). -/
def digitsUnderscore : List Char → Nat → Option Nat
  | [], acc => some acc
  | c :: cs, acc =>
    if c.isDigit then digitsUnderscore cs (acc * 10 + digitVal c)
    else if c = '_' then
      match cs with
      | [] => none
      | c2 :: cs2 =>
        if c2.isDigit then digitsUnderscore cs2 (acc * 10 + digitVal c2) else none
    else none

/-- Nonempty digit run (with embedded underscores), as in Python `int()`. -/
def parseDigits : List Char → Option Nat
  | [] => none
  | c :: cs => if c.isDigit then digitsUnderscore cs (digitVal c) else none

/-- Strip leading and trailing whitespace, as `int()` does to its argument. -/
def stripWS (l : List Char) : List Char :=
  ((l.dropWhile Char.isWhitespace).reverse.dropWhile Char.isWhitespace).reverse

/-- Model of Python's built-in `int(s)` on ASCII strings: optional
surrounding whitespace, an optional single sign, then a nonempty run of
decimal digits with single underscores allowed between digits.
`none` models the `ValueError` raised otherwise. -/
def pyIntCore : List Char → Option Int
  | [] => none
  | c :: rest =>
    if c = '+' then (parseDigits rest).map Int.ofNat
    else if c = '-' then (parseDigits rest).map (fun n => -(n : Int))
    else (parseDigits (c :: rest)).map Int.ofNat

def pyInt (s : String) : Option Int :=
  pyIntCore (stripWS s.toList)

/-- A parsed calendar date (proleptic Gregorian), as produced by
`dateutil.parser.parse(...)`. -/
structure PyDate where
  year : Nat
  month : Nat
  day : Nat
deriving DecidableEq

/-- Gregorian leap-year test. -/
def isLeap (y : Nat) : Bool :=
  y % 4 = 0 && (y % 100 ≠ 0 || y % 400 = 0)

/-- Length of a month in a given year. -/
def daysInMonth (y m : Nat) : Nat :=
  if m = 2 then (if isLeap y then 29 else 28)
  else if m = 4 || m = 6 || m = 9 || m = 11 then 30
  else 31

/-- Days in year `y` strictly before month `m`. -/
def daysBeforeMonth (y m : Nat) : Nat :=
  ((List.range (m - 1)).map (fun k => daysInMonth y (k + 1))).sum

/-- Rata-die day number: 0001-01-01 has number 1. -/
def rataDie (dt : PyDate) : Nat :=
  365 * (dt.year - 1) + ((dt.year - 1) / 4 - (dt.year - 1) / 100 + (dt.year - 1) / 400)
    + daysBeforeMonth dt.year dt.month + dt.day

/-- Python `date.weekday()`: 0 = Monday .. 6 = Sunday.
(0001-01-01 was a Monday in the proleptic Gregorian calendar.) -/
def PyDate.weekday (dt : PyDate) : Nat :=
  (rataDie dt + 6) % 7

/-- English month name to month number. -/
def monthNum (s : String) : Option Nat :=
  if s = "January" then some 1
  else if s = "February" then some 2
  else if s = "March" then some 3
  else if s = "April" then some 4
  else if s = "May" then some 5
  else if s = "June" then some 6
  else if s = "July" then some 7
  else if s = "August" then some 8
  else if s = "September" then some 9
  else if s = "October" then some 10
  else if s = "November" then some 11
  else if s = "December" then some 12
  else none

/-- A string of decimal digits (no sign, no underscores), as a number. -/
def parseAllDigits (s : String) : Option Nat :=
  if s.toList ≠ [] && s.toList.all Char.isDigit then
    some (s.toList.foldl (fun a c => a * 10 + digitVal c) 0)
  else none

/-- Is the (y, m, d) triple a real calendar date? -/
def validDate (y m d : Nat) : Bool :=
  1 ≤ y && 1 ≤ m && m ≤ 12 && 1 ≤ d && d ≤ daysInMonth y m

/-- Split a character list at every occurrence of a separator. -/
def splitOnChar (sep : Char) : List Char → List (List Char)
  | [] => [[]]
  | c :: cs =>
    if c = sep then [] :: splitOnChar sep cs
    else
      match splitOnChar sep cs with
      | [] => [[c]]
      | h :: t => (c :: h) :: t

/-- Split a string at every occurrence of a separator character. -/
def splitStr (sep : Char) (s : String) : List String :=
  (splitOnChar sep s.toList).map String.mk

/-- Model of the external `dateutil.parser.parse(...)` on the two date
shapes this pipeline feeds it: a human-formatted `"D Month YYYY"` string
and an ISO `"YYYY-MM-DD"` string.  `none` models dateutil's `ParserError`. -/
def dateutil_parse (s : String) : Option PyDate :=
  match splitStr ' ' s with
  | [dayS, monS, yearS] => do
    let d ← parseAllDigits dayS
    let m ← monthNum monS
    let y ← parseAllDigits yearS
    if validDate y m d then some ⟨y, m, d⟩ else none
  | [single] =>
    match splitStr '-' single with
    | [yearS, monS, dayS] => do
      let y ← parseAllDigits yearS
      let m ← parseAllDigits monS
      let d ← parseAllDigits dayS
      if validDate y m d then some ⟨y, m, d⟩ else none
    | _ => none
  | _ => none

/-- Two-digit zero-padded rendering, as in `str(date)`. -/
def pad2 (n : Nat) : String :=
  if n < 10 then "0" ++ toString n else toString n

/-- Four-digit zero-padded year rendering, as in `str(date)`. -/
def pad4 (n : Nat) : String :=
  if n < 10 then "000" ++ toString n
  else if n < 100 then "00" ++ toString n
  else if n < 1000 then "0" ++ toString n
  else toString n

/-- Python `str(dateutil.parser.parse(x).date())`: ISO `YYYY-MM-DD`. -/
def isoRender (dt : PyDate) : String :=
  pad4 dt.year ++ "-" ++ pad2 dt.month ++ "-" ++ pad2 dt.day

deriving instance DecidableEq for Except

/-- Python's `<` on strings, at the character-list level: lexicographic by
code point. -/
def chLt : List Char → List Char → Bool
  | [], [] => false
  | [], _ :: _ => true
  | _ :: _, [] => false
  | a :: as, b :: bs => decide (a < b) || (decide (a = b) && chLt as bs)

/-- Python's `a < b` on `str`: lexicographic comparison by code point. -/
def strLtB (a b : String) : Bool := chLt a.toList b.toList

/-- Python's `<` on the cell values that occur in transformed rows:
`int < int` numerically, `str < str` lexicographically by code point.
Python raises `TypeError` on `int`/`str` comparison; transformed rows are
uniformly shaped so that case never arises, and we complete the order
(ints before strings) to keep sorting total. -/
def valueLt : Value → Value → Bool
  | .VInt a, .VInt b => decide (a < b)
  | .VInt _, .VStr _ => true
  | .VStr _, .VInt _ => false
  | .VStr a, .VStr b => strLtB a b

/-- Python's `<=` on rows (lists), lexicographic, a strict prefix being
smaller: the order `sorted(...)` arranges rows by. -/
def rowLe : List Value → List Value → Bool
  | [], _ => true
  | _ :: _, [] => false
  | a :: as, b :: bs => valueLt a b || (decide (a = b) && rowLe as bs)

/-- Relation form of `rowLe`, as a relation, for the sorting API. -/
def rowLeP (a b : List Value) : Prop := rowLe a b = true

instance : DecidableRel rowLeP :=
  fun a b => inferInstanceAs (Decidable (rowLe a b = true))

/-- Python `sorted(...)` on a list of rows: a stable sort by `rowLe`,
modelled by insertion sort. -/
def pySorted (l : List (List Value)) : List (List Value) :=
  List.insertionSort rowLeP l

/-- Python `int(x)` lifted to a `Value`, `ValueError` on failure. -/
def toVInt (x : String) : Except PyErr Value :=
  match pyInt x with
  | some n => Except.ok (Value.VInt n)
  | none => Except.error PyErr.valueError

/-- Loop body of `transform`: parse the date cell, render it ISO, parse the
remaining cells as ints.  `row[0]` on an empty row is an `IndexError`;
an unparseable date is dateutil's `ParserError`. -/
def transformRow (row : List String) : Except PyErr (List Value) :=
  match row with
  | [] => Except.error PyErr.indexError
  | d :: rest =>
    match dateutil_parse d with
    | none => Except.error PyErr.parserError
    | some pd =>
      (rest.mapM toVInt).map (fun vs => Value.VStr (isoRender pd) :: vs)

/-- Function `transform(rows)` of `ingest.py`: per-row date/int parsing, then
`sorted(result)`. -/
def transform (rows : List (List String)) : Except PyErr (List (List Value)) :=
  (rows.mapM transformRow).map pySorted

/-- Loop body of `heat_transform`: additionally prepend
`str(dateutil.parser.parse(row[0]).weekday())` — note the `str(...)`:
the weekday is stored as a string, not an int. -/
def heatRow (row : List String) : Except PyErr (List Value) :=
  match row with
  | [] => Except.error PyErr.indexError
  | d :: rest =>
    match dateutil_parse d with
    | none => Except.error PyErr.parserError
    | some pd =>
      (rest.mapM toVInt).map (fun vs =>
        Value.VStr (toString pd.weekday) :: Value.VStr (isoRender pd) :: vs)

/-- Function `heat_transform(rows)` of `ingest.py`. -/
def heat_transform (rows : List (List String)) : Except PyErr (List (List Value)) :=
  (rows.mapM heatRow).map pySorted

/-- Python's `needle in hay` where `hay` may be `None`: `TypeError` then. -/
def pyIn (needle : String) (hay : Option String) : Except PyErr Bool :=
  match hay with
  | none => Except.error PyErr.typeError
  | some s => Except.ok (pyInStr needle s)

/-- Python's `row[i]`: `IndexError` when out of range. -/
def getCell (row : List (Option String)) (i : Nat) : Except PyErr (Option String) :=
  match row.get? i with
  | none => Except.error PyErr.indexError
  | some c => Except.ok c

/-- Per-cell step of `validate`'s comprehension on a possibly-`None` cell:
`None.endswith` is an `AttributeError`. -/
def stripCell : Option String → Except PyErr String
  | none => Except.error PyErr.attributeError
  | some s => Except.ok (pyStrip s)

/-- Function `validate(table)` of `ingest.py`, over rows whose cells may be `None`
(as `extract` produces them).  A row whose first cell contains `"Day"` has
its second and third cells asserted to contain `"New staff"` and
`"New student"` and is then dropped; other rows get a trailing `'*'`
stripped from each cell and are kept. -/
def validate : List (List (Option String)) → Except PyErr (List (List String))
  | [] => Except.ok []
  | row :: rest =>
    match row.head? with
    | none => Except.error PyErr.indexError
    | some c0 =>
      match pyIn "Day" c0 with
      | Except.error e => Except.error e
      | Except.ok hasDay =>
        if hasDay then
          match getCell row 1 with
          | Except.error e => Except.error e
          | Except.ok c1 =>
            match pyIn "New staff" c1 with
            | Except.error e => Except.error e
            | Except.ok b1 =>
              if b1 then
                match getCell row 2 with
                | Except.error e => Except.error e
                | Except.ok c2 =>
                  match pyIn "New student" c2 with
                  | Except.error e => Except.error e
                  | Except.ok b2 =>
                    if b2 then validate rest
                    else Except.error PyErr.assertionError
              else Except.error PyErr.assertionError
        else
          match row.mapM stripCell with
          | Except.error e => Except.error e
          | Except.ok stripped => (validate rest).map (stripped :: ·)

/-- An HTTP response as `requests` returns it. -/
structure HttpResponse where
  status : Nat
  text : String
deriving DecidableEq

/-- A parsed DOM; `html5lib.parse` is lenient and total, so the model
simply wraps the markup it was given. -/
inductive Dom where
  | parsed (html : String)
deriving DecidableEq

/-- Model of `html5lib.parse(text, namespaceHTMLElements=False)`. -/
def html5lib_parse (s : String) : Dom := Dom.parsed s

/-- Function `fetch()` of `ingest.py`.  The argument models the outcome of
`requests.get(URL)`: an exception (which propagates) or a response.
No status check is performed: any completed response is parsed. -/
def fetch (r : Except PyErr HttpResponse) : Except PyErr Dom :=
  match r with
  | Except.error e => Except.error e
  | Except.ok resp => Except.ok (html5lib_parse resp.text)

/-- The module-level fetch of `gov_data.py`: `get(ENDPOINT, ...)` followed
by `if response.status_code >= 400: raise RuntimeError(...)`, else the
response body is used. -/
def gov_fetch (r : Except PyErr HttpResponse) : Except PyErr String :=
  match r with
  | Except.error e => Except.error e
  | Except.ok resp =>
    if 400 ≤ resp.status then Except.error PyErr.runtimeError
    else Except.ok resp.text

/-- Model of `np.array(heatdata)[:,j].astype(int)` applied to one cell:
numpy renders every cell to a string and `astype(int)` parses it back, so
both `int` cells and numeric-string cells yield their integer value. -/
def valueToInt : Value → Option Int
  | .VInt n => some n
  | .VStr s => pyInt s

/-- Column `j` of the heat data as integers; `IndexError` on a short row,
`ValueError` on a non-numeric cell. -/
def colExtract (data : List (List Value)) (j : Nat) : Except PyErr (List Int) :=
  data.mapM (fun r =>
    match r.get? j with
    | none => Except.error PyErr.indexError
    | some v =>
      match valueToInt v with
      | none => Except.error PyErr.valueError
      | some n => Except.ok n)

/-- Model of `np.bincount(days, weights)`: the result has `max(days) + 1`
buckets (`0` for an empty input — no `minlength` is passed), bucket `k`
holding the sum of the weights at positions whose day equals `k`. -/
def bincount (days : List Nat) (weights : List Int) : List Int :=
  (List.range (days.foldr (fun d m => max (d + 1) m) 0)).map
    (fun k => (((days.zip weights).filter (fun p => p.1 = k)).map (fun p => p.2)).sum)

/-- The aggregation of `create_heatmap(heatdata)`: extract the weekday,
student and staff columns, bucket-sum the two value columns by weekday with
`np.bincount`, and form `plotarray = [studentsums, staffsums]`.  The
annotation loop then reads `plotarray[i, j]` for every `i < 2`, `j < 7`,
which raises `IndexError` whenever `bincount` produced fewer than 7
buckets. -/
def create_heatmap_grid (heatdata : List (List Value)) : Except PyErr (List (List Int)) :=
  match colExtract heatdata 0 with
  | Except.error e => Except.error e
  | Except.ok daysI =>
    match colExtract heatdata 3 with
    | Except.error e => Except.error e
    | Except.ok studentvals =>
      match colExtract heatdata 2 with
      | Except.error e => Except.error e
      | Except.ok staffvals =>
        let days := daysI.map Int.toNat
        let studentsums := bincount days studentvals
        let staffsums := bincount days staffvals
        if studentsums.length < 7 || staffsums.length < 7 then
          Except.error PyErr.indexError
        else
          Except.ok [studentsums, staffsums]

/-- The ISO date a raw row will render to: `dateutil` parse of the first
cell, re-rendered `YYYY-MM-DD`.  Rows with distinct dates have distinct
`dateKey`s. -/
def dateKey (row : List String) : Option String :=
  match row with
  | [] => none
  | d :: _ => (dateutil_parse d).map isoRender

/-- The leading ISO date string of a transformed output row. -/
def headDate (r : List Value) : Option String :=
  match r with
  | Value.VStr s :: _ => some s
  | _ => none

/-! Order-theoretic facts about the row comparison used by `sorted(...)`. -/

theorem chLt_trans (a : List Char) : ∀ b c, chLt a b = true → chLt b c = true → chLt a c = true := by
  induction a with
  | nil =>
    intro b c h1 h2
    cases b with
    | nil => exact absurd h1 (by simp [chLt])
    | cons y ys =>
      cases c with
      | nil => exact absurd h2 (by simp [chLt])
      | cons z zs => simp [chLt]
  | cons x xs ih =>
    intro b c h1 h2
    cases b with
    | nil => exact absurd h1 (by simp [chLt])
    | cons y ys =>
      cases c with
      | nil => exact absurd h2 (by simp [chLt])
      | cons z zs =>
        simp only [chLt, Bool.or_eq_true, Bool.and_eq_true, decide_eq_true_eq] at h1 h2 ⊢
        rcases h1 with hxy | ⟨hxy, hxs⟩
        · rcases h2 with hyz | ⟨hyz, hys⟩
          · exact Or.inl (lt_trans hxy hyz)
          · subst hyz; exact Or.inl hxy
        · subst hxy
          rcases h2 with hyz | ⟨hyz, hys⟩
          · exact Or.inl hyz
          · subst hyz; exact Or.inr ⟨rfl, ih ys zs hxs hys⟩

theorem chLt_conn (a : List Char) : ∀ b, chLt a b = false → chLt b a = false → a = b := by
  induction a with
  | nil =>
    intro b h1 _
    cases b with
    | nil => rfl
    | cons y ys => exact absurd h1 (by simp [chLt])
  | cons x xs ih =>
    intro b h1 h2
    cases b with
    | nil => exact absurd h2 (by simp [chLt])
    | cons y ys =>
      simp only [chLt, Bool.or_eq_false_iff, Bool.and_eq_false_iff,
        decide_eq_false_iff_not] at h1 h2
      obtain ⟨hxy, h1'⟩ := h1
      obtain ⟨hyx, h2'⟩ := h2
      have hx : x = y := by
        rcases lt_trichotomy x y with h | h | h
        · exact absurd h hxy
        · exact h
        · exact absurd h hyx
      subst hx
      rcases h1' with h1' | h1'
      · exact absurd rfl h1'
      · rcases h2' with h2' | h2'
        · exact absurd rfl h2'
        · rw [ih ys h1' h2']

theorem valueLt_trans (a b c : Value) (h1 : valueLt a b = true) (h2 : valueLt b c = true) :
    valueLt a c = true := by
  cases a with
  | VStr sa =>
    cases b with
    | VStr sb =>
      cases c with
      | VStr sc =>
        simp only [valueLt, strLtB] at h1 h2 ⊢
        exact chLt_trans _ _ _ h1 h2
      | VInt nc => exact absurd h2 (by simp [valueLt])
    | VInt nb => exact absurd h1 (by simp [valueLt])
  | VInt na =>
    cases c with
    | VStr sc => simp [valueLt]
    | VInt nc =>
      cases b with
      | VStr sb => exact absurd h2 (by simp [valueLt])
      | VInt nb =>
        simp only [valueLt, decide_eq_true_eq] at h1 h2 ⊢
        omega

theorem valueLt_conn (a b : Value) (h1 : valueLt a b = false) (h2 : valueLt b a = false) :
    a = b := by
  cases a with
  | VStr sa =>
    cases b with
    | VStr sb =>
      simp only [valueLt, strLtB] at h1 h2
      have := chLt_conn sa.toList sb.toList h1 h2
      have hs : sa = sb := by
        have h3 : sa.data = sb.data := this
        cases sa; cases sb; exact congrArg String.mk (by simpa using h3)
      rw [hs]
    | VInt nb => exact absurd h2 (by simp [valueLt])
  | VInt na =>
    cases b with
    | VStr sb => exact absurd h1 (by simp [valueLt])
    | VInt nb =>
      simp only [valueLt, decide_eq_false_iff_not, Int.not_lt] at h1 h2
      have : na = nb := le_antisymm h2 h1
      rw [this]

theorem rowLe_total (a : List Value) : ∀ b, rowLe a b = true ∨ rowLe b a = true := by
  induction a with
  | nil => intro b; exact Or.inl (by cases b <;> simp [rowLe])
  | cons x xs ih =>
    intro b
    cases b with
    | nil => exact Or.inr (by simp [rowLe])
    | cons y ys =>
      by_cases hxy : valueLt x y = true
      · exact Or.inl (by simp [rowLe, hxy])
      · by_cases hyx : valueLt y x = true
        · exact Or.inr (by simp [rowLe, hyx])
        · have hx : x = y :=
            valueLt_conn x y (by revert hxy; cases valueLt x y <;> simp)
              (by revert hyx; cases valueLt y x <;> simp)
          subst hx
          rcases ih ys with h | h
          · exact Or.inl (by simp [rowLe, h])
          · exact Or.inr (by simp [rowLe, h])

theorem rowLe_trans (a : List Value) : ∀ b c, rowLe a b = true → rowLe b c = true →
    rowLe a c = true := by
  induction a with
  | nil => intro b c _ _; cases c <;> simp [rowLe]
  | cons x xs ih =>
    intro b c h1 h2
    cases b with
    | nil => exact absurd h1 (by simp [rowLe])
    | cons y ys =>
      cases c with
      | nil => exact absurd h2 (by simp [rowLe])
      | cons z zs =>
        simp only [rowLe, Bool.or_eq_true, Bool.and_eq_true, decide_eq_true_eq] at h1 h2 ⊢
        rcases h1 with hxy | ⟨hxy, hxs⟩
        · rcases h2 with hyz | ⟨hyz, hys⟩
          · exact Or.inl (valueLt_trans _ _ _ hxy hyz)
          · subst hyz; exact Or.inl hxy
        · subst hxy
          rcases h2 with hyz | ⟨hyz, hys⟩
          · exact Or.inl hyz
          · subst hyz; exact Or.inr ⟨rfl, ih ys zs hxs hys⟩

theorem pySorted_sorted (l : List (List Value)) : (pySorted l).Pairwise rowLeP := by
  haveI : IsTotal (List Value) rowLeP := ⟨fun a b => rowLe_total a b⟩
  haveI : IsTrans (List Value) rowLeP := ⟨fun a b c => rowLe_trans a b c⟩
  exact List.sorted_insertionSort rowLeP l

theorem pySorted_perm (l : List (List Value)) : (pySorted l).Perm l :=
  List.perm_insertionSort rowLeP l

/-! Facts about monadic maps over `Except` and `Option`, used to relate the
row loops of `transform`, `heat_transform` and `validate` to their bodies. -/

theorem mapM_ok_mem {α β : Type} (f : α → Except PyErr β) :
    ∀ (l : List α) (out : List β) (a : α), l.mapM f = Except.ok out → a ∈ l →
      ∃ b, b ∈ out ∧ f a = Except.ok b := by
  intro l
  induction l with
  | nil => intro out a _ ha; exact absurd ha (List.not_mem_nil a)
  | cons x xs ih =>
    intro out a hmap ha
    rw [List.mapM_cons] at hmap
    cases hfx : f x with
    | error e =>
      rw [hfx] at hmap
      simp [Bind.bind, Except.bind] at hmap
    | ok bx =>
      rw [hfx] at hmap
      cases hxs : xs.mapM f with
      | error e =>
        rw [hxs] at hmap
        simp [Bind.bind, Except.bind] at hmap
      | ok bs =>
        rw [hxs] at hmap
        simp only [Bind.bind, Except.bind, Pure.pure, Except.pure, Except.ok.injEq] at hmap
        rcases List.mem_cons.mp ha with rfl | hmem
        · exact ⟨bx, by rw [← hmap]; exact List.mem_cons_self bx bs, hfx⟩
        · obtain ⟨b, hb, hfb⟩ := ih bs a hxs hmem
          exact ⟨b, by rw [← hmap]; exact List.mem_cons_of_mem bx hb, hfb⟩

theorem mapM_ok_mem_rev {α β : Type} (f : α → Except PyErr β) :
    ∀ (l : List α) (out : List β) (b : β), l.mapM f = Except.ok out → b ∈ out →
      ∃ a, a ∈ l ∧ f a = Except.ok b := by
  intro l
  induction l with
  | nil =>
    intro out b hmap hb
    simp only [List.mapM_nil, Pure.pure, Except.pure, Except.ok.injEq] at hmap
    rw [← hmap] at hb
    exact absurd hb (List.not_mem_nil b)
  | cons x xs ih =>
    intro out b hmap hb
    rw [List.mapM_cons] at hmap
    cases hfx : f x with
    | error e =>
      rw [hfx] at hmap
      simp [Bind.bind, Except.bind] at hmap
    | ok bx =>
      rw [hfx] at hmap
      cases hxs : xs.mapM f with
      | error e =>
        rw [hxs] at hmap
        simp [Bind.bind, Except.bind] at hmap
      | ok bs =>
        rw [hxs] at hmap
        simp only [Bind.bind, Except.bind, Pure.pure, Except.pure, Except.ok.injEq] at hmap
        rw [← hmap] at hb
        rcases List.mem_cons.mp hb with rfl | hmem
        · exact ⟨x, List.mem_cons_self x xs, hfx⟩
        · obtain ⟨a, ha, hfa⟩ := ih bs b hxs hmem
          exact ⟨a, List.mem_cons_of_mem x ha, hfa⟩

theorem mapM_ok_map {α β γ : Type} (f : α → Except PyErr β) (g : β → γ) (k : α → γ)
    (hgk : ∀ a b, f a = Except.ok b → g b = k a) :
    ∀ (l : List α) (out : List β), l.mapM f = Except.ok out → out.map g = l.map k := by
  intro l
  induction l with
  | nil =>
    intro out hmap
    simp only [List.mapM_nil, Pure.pure, Except.pure, Except.ok.injEq] at hmap
    rw [← hmap]; rfl
  | cons x xs ih =>
    intro out hmap
    rw [List.mapM_cons] at hmap
    cases hfx : f x with
    | error e =>
      rw [hfx] at hmap
      simp [Bind.bind, Except.bind] at hmap
    | ok bx =>
      rw [hfx] at hmap
      cases hxs : xs.mapM f with
      | error e =>
        rw [hxs] at hmap
        simp [Bind.bind, Except.bind] at hmap
      | ok bs =>
        rw [hxs] at hmap
        simp only [Bind.bind, Except.bind, Pure.pure, Except.pure, Except.ok.injEq] at hmap
        rw [← hmap, List.map_cons, List.map_cons, hgk x bx hfx, ih bs hxs]

theorem isOk_false_iff {β : Type} (e : Except PyErr β) :
    e.isOk = false ↔ ¬ ∃ b, e = Except.ok b := by
  cases e <;> simp [Except.isOk, Except.toBool]

theorem mapM_ok_total {α β : Type} (f : α → Except PyErr β) :
    ∀ (l : List α), (∀ a ∈ l, ∃ b, f a = Except.ok b) → ∃ out, l.mapM f = Except.ok out := by
  intro l
  induction l with
  | nil => intro _; exact ⟨[], by rw [List.mapM_nil]; rfl⟩
  | cons x xs ih =>
    intro h
    obtain ⟨bx, hbx⟩ := h x (List.mem_cons_self x xs)
    obtain ⟨out, hout⟩ := ih (fun a ha => h a (List.mem_cons_of_mem x ha))
    exact ⟨bx :: out, by rw [List.mapM_cons, hbx, hout]; rfl⟩

theorem mapM_isOk_false_iff {α β : Type} (f : α → Except PyErr β) (l : List α) :
    (l.mapM f).isOk = false ↔ ∃ a, a ∈ l ∧ (f a).isOk = false := by
  constructor
  · intro h
    by_contra hc
    push_neg at hc
    have hall : ∀ a ∈ l, ∃ b, f a = Except.ok b := by
      intro a ha
      have hne := hc a ha
      cases hq : f a with
      | ok b => exact ⟨b, rfl⟩
      | error e => rw [hq] at hne; exact absurd rfl hne
    obtain ⟨out, hout⟩ := mapM_ok_total f l hall
    rw [hout] at h
    cases h
  · rintro ⟨a, ha, hfa⟩
    cases hm : l.mapM f with
    | error e => rfl
    | ok out =>
      obtain ⟨b, _, hfb⟩ := mapM_ok_mem f l out a hm ha
      rw [hfb] at hfa
      cases hfa

theorem toVInt_mapM : ∀ (cells : List String) (vs : List Int),
    cells.mapM pyInt = some vs → cells.mapM toVInt = Except.ok (vs.map Value.VInt) := by
  intro cells
  induction cells with
  | nil =>
    intro vs hmap
    simp only [List.mapM_nil, Pure.pure, Option.some.injEq] at hmap
    rw [← hmap]
    rfl
  | cons x xs ih =>
    intro vs hmap
    rw [List.mapM_cons] at hmap ⊢
    cases hx : pyInt x with
    | none => rw [hx] at hmap; simp [Bind.bind, Option.bind] at hmap
    | some n =>
      rw [hx] at hmap
      cases hxs : xs.mapM pyInt with
      | none => rw [hxs] at hmap; simp [Bind.bind, Option.bind] at hmap
      | some ws =>
        rw [hxs] at hmap
        simp only [Bind.bind, Option.bind, Pure.pure, Option.some.injEq] at hmap
        have h1 : toVInt x = Except.ok (Value.VInt n) := by simp [toVInt, hx]
        rw [h1, ih ws hxs]
        simp only [Bind.bind, Except.bind, Pure.pure, Except.pure, ← hmap]
        rfl

/-! Facts about the cell-level operations of `validate`. -/

theorem stripCell_somes : ∀ (rs : List String),
    (rs.map some).mapM stripCell = Except.ok (rs.map pyStrip) := by
  intro rs
  induction rs with
  | nil => rw [List.map_nil, List.mapM_nil]; rfl
  | cons x xs ih =>
    rw [List.map_cons, List.mapM_cons, ih]
    rfl

theorem stripCell_none : ∀ (row : List (Option String)), none ∈ row →
    row.mapM stripCell = Except.error PyErr.attributeError := by
  intro row
  induction row with
  | nil => intro h; exact absurd h (List.not_mem_nil none)
  | cons x xs ih =>
    intro h
    cases x with
    | none => rw [List.mapM_cons]; rfl
    | some s =>
      have hmem : none ∈ xs := by
        rcases List.mem_cons.mp h with h' | h'
        · cases h'
        · exact h'
      rw [List.mapM_cons, ih hmem]
      rfl

theorem pyStrip_star (s : String) (h : endsWithStar s = true) : pyStrip s ++ "*" = s := by
  have h' := h
  unfold endsWithStar at h'
  cases hg : s.toList.getLast? with
  | none => rw [hg] at h'; cases h'
  | some c =>
    rw [hg] at h'
    have hc : c = '*' := by simpa using h'
    subst hc
    have hne : s.toList ≠ [] := by
      intro hnil
      rw [hnil] at hg
      cases hg
    have hlast : s.toList.getLast hne = '*' := by
      have h2 := List.getLast?_eq_getLast s.toList hne
      rw [h2] at hg
      exact Option.some.inj hg
    have hdecomp : s.toList.dropLast ++ ['*'] = s.toList := by
      rw [← hlast]
      exact List.dropLast_concat_getLast hne
    unfold pyStrip
    rw [if_pos h]
    unfold strDropLast
    calc String.mk s.toList.dropLast ++ "*"
        = String.mk (s.toList.dropLast ++ ['*']) := rfl
      _ = String.mk s.toList := by rw [hdecomp]
      _ = s := rfl

theorem pyStrip_nostar (s : String) (h : endsWithStar s = false) : pyStrip s = s := by
  unfold pyStrip
  rw [h]
  rfl

/-! Facts about the model of Python `int()` on purely numeric cells. -/

theorem digit_not_ws (c : Char) (h : c.isDigit = true) : c.isWhitespace = false := by
  by_contra hw
  have hw' : c.isWhitespace = true := by
    cases hq : c.isWhitespace
    · exact absurd hq hw
    · rfl
  have hcase : ((c = ' ' ∨ c = '\t') ∨ c = '\r') ∨ c = '\n' := by
    simpa [Char.isWhitespace] using hw'
  rcases hcase with ((rfl | rfl) | rfl) | rfl <;> exact absurd h (by decide)

theorem stripWS_digits (l : List Char) (hne : l ≠ []) (hall : l.all Char.isDigit = true) :
    stripWS l = l := by
  unfold stripWS
  cases l with
  | nil => exact absurd rfl hne
  | cons c cs =>
    have hc : c.isDigit = true := (List.all_eq_true.mp hall) c (List.mem_cons_self c cs)
    have h1 : (c :: cs).dropWhile Char.isWhitespace = c :: cs := by
      rw [List.dropWhile_cons, digit_not_ws c hc]
      simp
    rw [h1]
    cases hr : (c :: cs).reverse with
    | nil => exact absurd hr (by simp)
    | cons d ds =>
      have hdmem : d ∈ c :: cs := by
        rw [← List.mem_reverse, hr]
        exact List.mem_cons_self d ds
      have hd : d.isDigit = true := (List.all_eq_true.mp hall) d hdmem
      have h2 : List.dropWhile Char.isWhitespace (d :: ds) = d :: ds := by
        rw [List.dropWhile_cons, digit_not_ws d hd]
        simp
      rw [h2, ← hr, List.reverse_reverse]

theorem digitsUnderscore_all (cs : List Char) : ∀ acc, cs.all Char.isDigit = true →
    (digitsUnderscore cs acc).isSome = true := by
  induction cs with
  | nil => intro acc _; rfl
  | cons c cs' ih =>
    intro acc hall
    have hc : c.isDigit = true := (List.all_eq_true.mp hall) c (List.mem_cons_self c cs')
    have hcs : cs'.all Char.isDigit = true := by
      rw [List.all_eq_true]
      intro x hx
      exact (List.all_eq_true.mp hall) x (List.mem_cons_of_mem c hx)
    unfold digitsUnderscore
    rw [hc]
    simp only [if_true]
    exact ih _ hcs

theorem pyInt_digits (s : String) (hne : s.toList ≠ []) (hall : s.toList.all Char.isDigit = true) :
    (pyInt s).isSome = true := by
  unfold pyInt
  rw [stripWS_digits s.toList hne hall]
  cases hl : s.toList with
  | nil => exact absurd hl hne
  | cons c cs =>
    rw [hl] at hall
    have hc : c.isDigit = true := (List.all_eq_true.mp hall) c (List.mem_cons_self c cs)
    have hcs : cs.all Char.isDigit = true := by
      rw [List.all_eq_true]
      intro x hx
      exact (List.all_eq_true.mp hall) x (List.mem_cons_of_mem c hx)
    have hplus : c ≠ '+' := by
      intro hh
      subst hh
      exact absurd hc (by decide)
    have hminus : c ≠ '-' := by
      intro hh
      subst hh
      exact absurd hc (by decide)
    simp only [pyIntCore]
    rw [if_neg hplus, if_neg hminus]
    simp only [parseDigits]
    rw [hc]
    simp only [if_true]
    have hdu := digitsUnderscore_all cs (digitVal c) hcs
    cases hq : digitsUnderscore cs (digitVal c) with
    | none => rw [hq] at hdu; cases hdu
    | some n => rfl

/-! Decomposition of `transform` / `heat_transform` into row loop and sort,
and characterizations of the row bodies. -/

theorem exceptMap_isOk {β γ : Type} (f : β → γ) (e : Except PyErr β) :
    (e.map f).isOk = e.isOk := by
  cases e <;> rfl

theorem transform_eq_ok (rows : List (List String)) (out : List (List Value))
    (h : transform rows = Except.ok out) :
    ∃ l, rows.mapM transformRow = Except.ok l ∧ out = pySorted l := by
  unfold transform at h
  cases hm : rows.mapM transformRow with
  | error e => rw [hm] at h; simp only [Except.map] at h; cases h
  | ok l =>
    rw [hm] at h
    simp only [Except.map] at h
    exact ⟨l, rfl, (Except.ok.inj h).symm⟩

theorem heat_transform_eq_ok (rows : List (List String)) (out : List (List Value))
    (h : heat_transform rows = Except.ok out) :
    ∃ l, rows.mapM heatRow = Except.ok l ∧ out = pySorted l := by
  unfold heat_transform at h
  cases hm : rows.mapM heatRow with
  | error e => rw [hm] at h; simp only [Except.map] at h; cases h
  | ok l =>
    rw [hm] at h
    simp only [Except.map] at h
    exact ⟨l, rfl, (Except.ok.inj h).symm⟩

theorem transformRow_ok (d : String) (cells : List String) (pd : PyDate) (vs : List Int)
    (hd : dateutil_parse d = some pd) (hc : cells.mapM pyInt = some vs) :
    transformRow (d :: cells) = Except.ok (Value.VStr (isoRender pd) :: vs.map Value.VInt) := by
  simp only [transformRow, hd, toVInt_mapM cells vs hc, Except.map]

theorem transformRow_shape (row : List String) (b : List Value)
    (h : transformRow row = Except.ok b) :
    ∃ d cells pd vvs, row = d :: cells ∧ dateutil_parse d = some pd ∧
      cells.mapM toVInt = Except.ok vvs ∧ b = Value.VStr (isoRender pd) :: vvs := by
  cases row with
  | nil => simp only [transformRow] at h; cases h
  | cons d cells =>
    simp only [transformRow] at h
    cases hd : dateutil_parse d with
    | none => rw [hd] at h; cases h
    | some pd =>
      rw [hd] at h
      cases hm : cells.mapM toVInt with
      | error e => rw [hm] at h; simp only [Except.map] at h; cases h
      | ok vvs =>
        rw [hm] at h
        simp only [Except.map] at h
        exact ⟨d, cells, pd, vvs, rfl, hd, hm, (Except.ok.inj h).symm⟩

theorem transformRow_headDate (row : List String) (b : List Value)
    (h : transformRow row = Except.ok b) : headDate b = dateKey row := by
  obtain ⟨d, cells, pd, vvs, hrow, hd, _, hb⟩ := transformRow_shape row b h
  subst hrow
  subst hb
  simp [headDate, dateKey, hd]

theorem toVInt_isOk_false (x : String) : (toVInt x).isOk = false ↔ pyInt x = none := by
  cases hp : pyInt x with
  | none => simp [toVInt, hp, Except.isOk, Except.toBool]
  | some n => simp [toVInt, hp, Except.isOk, Except.toBool]

theorem transformRow_isOk_false (row : List String) :
    (transformRow row).isOk = false ↔
      row = [] ∨ ∃ d rest, row = d :: rest ∧
        (dateutil_parse d = none ∨ ∃ x, x ∈ rest ∧ pyInt x = none) := by
  cases row with
  | nil => simp [transformRow, Except.isOk, Except.toBool]
  | cons d cells =>
    constructor
    · intro h
      cases hd : dateutil_parse d with
      | none => exact Or.inr ⟨d, cells, rfl, Or.inl hd⟩
      | some pd =>
        simp only [transformRow, hd] at h
        cases hm : cells.mapM toVInt with
        | ok vvs => rw [hm] at h; simp [Except.map, Except.isOk, Except.toBool] at h
        | error e =>
          have hfalse : (cells.mapM toVInt).isOk = false := by rw [hm]; rfl
          obtain ⟨x, hx, hfx⟩ := (mapM_isOk_false_iff toVInt cells).mp hfalse
          exact Or.inr ⟨d, cells, rfl, Or.inr ⟨x, hx, (toVInt_isOk_false x).mp hfx⟩⟩
    · intro h
      rcases h with h | ⟨d', rest, heq, hfail⟩
      · cases h
      · injection heq with h1 h2
        subst h1
        subst h2
        rcases hfail with hdate | ⟨x, hx, hxnone⟩
        · simp [transformRow, hdate, Except.isOk, Except.toBool]
        · cases hd : dateutil_parse d with
          | none => simp [transformRow, hd, Except.isOk, Except.toBool]
          | some pd =>
            have hfx : (toVInt x).isOk = false := (toVInt_isOk_false x).mpr hxnone
            have hm : (cells.mapM toVInt).isOk = false :=
              (mapM_isOk_false_iff toVInt cells).mpr ⟨x, hx, hfx⟩
            cases hmm : cells.mapM toVInt with
            | ok vvs => rw [hmm] at hm; cases hm
            | error e =>
              simp only [transformRow, hd]
              rw [hmm]
              rfl

/-! Per-row behaviour of `validate`. -/

theorem validate_day_drop (a b c : String) (rest : List (Option String))
    (table : List (List (Option String)))
    (ha : pyInStr "Day" a = true) (hb : pyInStr "New staff" b = true)
    (hc : pyInStr "New student" c = true) :
    validate ((some a :: some b :: some c :: rest) :: table) = validate table := by
  simp [validate, pyIn, getCell, ha, hb, hc]

theorem validate_day_assert1 (a b : String) (rest : List (Option String))
    (table : List (List (Option String)))
    (ha : pyInStr "Day" a = true) (hb : pyInStr "New staff" b = false) :
    validate ((some a :: some b :: rest) :: table) = Except.error PyErr.assertionError := by
  simp [validate, pyIn, getCell, ha, hb]

theorem validate_day_assert2 (a b c : String) (rest : List (Option String))
    (table : List (List (Option String)))
    (ha : pyInStr "Day" a = true) (hb : pyInStr "New staff" b = true)
    (hc : pyInStr "New student" c = false) :
    validate ((some a :: some b :: some c :: rest) :: table) = Except.error PyErr.assertionError := by
  simp [validate, pyIn, getCell, ha, hb, hc]

theorem validate_nonday (a : String) (rs : List String)
    (table : List (List (Option String))) (ha : pyInStr "Day" a = false) :
    validate ((some a :: rs.map some) :: table)
      = (validate table).map ((pyStrip a :: rs.map pyStrip) :: ·) := by
  have hstrip : (some a :: rs.map some).mapM stripCell
      = Except.ok (pyStrip a :: rs.map pyStrip) := by
    have h := stripCell_somes (a :: rs)
    simpa using h
  have hloop : List.mapM.loop stripCell (some a :: rs.map some) []
      = Except.ok (pyStrip a :: rs.map pyStrip) := hstrip
  simp [validate, pyIn, ha, hloop]

theorem validate_none_head (row : List (Option String))
    (h : row.head? = some none) (table : List (List (Option String))) :
    validate (row :: table) = Except.error PyErr.typeError := by
  cases row with
  | nil => cases h
  | cons x xs =>
    have hx : x = none := by simpa using h
    subst hx
    simp [validate, pyIn]

theorem validate_attr (a : String) (row : List (Option String))
    (table : List (List (Option String)))
    (hhead : row.head? = some (some a)) (ha : pyInStr "Day" a = false) (hmem : none ∈ row) :
    validate (row :: table) = Except.error PyErr.attributeError := by
  cases row with
  | nil => cases hhead
  | cons x xs =>
    have hx : x = some a := by simpa using hhead
    subst hx
    have hloop : List.mapM.loop stripCell (some a :: xs) []
        = Except.error PyErr.attributeError := stripCell_none _ hmem
    simp [validate, pyIn, ha, hloop]

theorem validate_empty_row (table : List (List (Option String))) :
    validate ([] :: table) = Except.error PyErr.indexError := by
  simp [validate]

theorem validate_day_short1 (a : String) (ha : pyInStr "Day" a = true) :
    validate [[some a]] = Except.error PyErr.indexError := by
  simp [validate, pyIn, getCell, ha]

theorem validate_day_short2 (a b : String)
    (ha : pyInStr "Day" a = true) (hb : pyInStr "New staff" b = true) :
    validate [[some a, some b]] = Except.error PyErr.indexError := by
  simp [validate, pyIn, getCell, ha, hb]

/-! The claims. -/

/-- C1, counterexample: `fetch()` of `ingest.py` does not fail on a
non-success HTTP status — on a completed status-500 response it returns
the DOM parsed from the error response body, contradicting the claim that
every fetch performs an explicit status check and fails with a
`NetworkError` on a non-success status. -/
theorem C1_counterexample :
    fetch (Except.ok ⟨500, "Server Error"⟩) = Except.ok (Dom.parsed "Server Error")
    ∧ (fetch (Except.ok ⟨500, "Server Error"⟩)).isOk = true :=
  ⟨rfl, rfl⟩

/-- C1, amended: the `gov_data.py` module-level fetch fails whenever the
request cannot complete or the response status is ≥ 400 (explicit status
check); `ingest.py`'s `fetch()` fails only when the request itself cannot
complete, and returns a DOM parsed from the response body for any
completed response, whatever its status. -/
theorem C1_fetch_status :
    (∀ resp : HttpResponse, fetch (Except.ok resp) = Except.ok (html5lib_parse resp.text))
    ∧ (∀ e : PyErr, fetch (Except.error e) = Except.error e)
    ∧ (∀ resp : HttpResponse, 400 ≤ resp.status →
        gov_fetch (Except.ok resp) = Except.error PyErr.runtimeError)
    ∧ (∀ resp : HttpResponse, resp.status < 400 →
        gov_fetch (Except.ok resp) = Except.ok resp.text)
    ∧ (∀ e : PyErr, gov_fetch (Except.error e) = Except.error e) := by
  refine ⟨fun resp => rfl, fun e => rfl, ?_, ?_, fun e => rfl⟩
  · intro resp h
    simp only [gov_fetch]
    rw [if_pos h]
  · intro resp h
    simp only [gov_fetch]
    rw [if_neg (by omega)]

/-- C1, witness for the amended theorem, at concrete responses. -/
theorem C1_fetch_status_witness :
    fetch (Except.ok ⟨404, "Not Found"⟩) = Except.ok (html5lib_parse "Not Found")
    ∧ gov_fetch (Except.ok ⟨500, "oops"⟩) = Except.error PyErr.runtimeError
    ∧ gov_fetch (Except.ok ⟨200, "body"⟩) = Except.ok "body"
    ∧ fetch (Except.error PyErr.requestException) = Except.error PyErr.requestException
    ∧ gov_fetch (Except.error PyErr.requestException) = Except.error PyErr.requestException :=
  ⟨C1_fetch_status.1 ⟨404, "Not Found"⟩,
   C1_fetch_status.2.2.1 ⟨500, "oops"⟩ (by decide),
   C1_fetch_status.2.2.2.1 ⟨200, "body"⟩ (by decide),
   C1_fetch_status.2.1 PyErr.requestException,
   C1_fetch_status.2.2.2.2 PyErr.requestException⟩

/-- C2: on the validated row `["11 October 2020", "5", "12"]` (a Sunday),
`heat_transform` prepends the *string* `"6"` — `str(weekday)` — and not an
integer, although the string's content does equal the Monday-0 weekday 6
of the parsed date.  This contradicts the claim (and the code's own
comment `days stored as 0-6 ints`). -/
theorem C2_weekday_is_string :
    heat_transform [["11 October 2020", "5", "12"]]
      = Except.ok [[Value.VStr "6", Value.VStr "2020-10-11", Value.VInt 5, Value.VInt 12]]
    ∧ (dateutil_parse "11 October 2020").map PyDate.weekday = some 6
    ∧ ∀ n : Int, Value.VStr "6" ≠ Value.VInt n := by
  refine ⟨by decide, by decide, ?_⟩
  intro n h
  cases h

/-- C3: `validate` drops exactly the rows whose first cell contains
`"Day"` and whose second and third cells contain `"New staff"` and
`"New student"`, emitting none of them; it raises the assertion
(`SchemaError`) when the second or third cell lacks its label; and every
row whose first cell does not contain `"Day"` is kept (asterisk-stripped). -/
theorem C3_validate_day_rows :
    (∀ (a b c : String) (rest : List (Option String)) (table : List (List (Option String))),
        pyInStr "Day" a = true → pyInStr "New staff" b = true → pyInStr "New student" c = true →
        validate ((some a :: some b :: some c :: rest) :: table) = validate table)
    ∧ (∀ (a b : String) (rest : List (Option String)) (table : List (List (Option String))),
        pyInStr "Day" a = true → pyInStr "New staff" b = false →
        validate ((some a :: some b :: rest) :: table) = Except.error PyErr.assertionError)
    ∧ (∀ (a b c : String) (rest : List (Option String)) (table : List (List (Option String))),
        pyInStr "Day" a = true → pyInStr "New staff" b = true → pyInStr "New student" c = false →
        validate ((some a :: some b :: some c :: rest) :: table)
          = Except.error PyErr.assertionError)
    ∧ (∀ (a : String) (rs : List String) (table : List (List (Option String))),
        pyInStr "Day" a = false →
        validate ((some a :: rs.map some) :: table)
          = (validate table).map ((pyStrip a :: rs.map pyStrip) :: ·)) :=
  ⟨fun a b c rest table ha hb hc => validate_day_drop a b c rest table ha hb hc,
   fun a b rest table ha hb => validate_day_assert1 a b rest table ha hb,
   fun a b c rest table ha hb hc => validate_day_assert2 a b c rest table ha hb hc,
   fun a rs table ha => validate_nonday a rs table ha⟩

/-- C3, witness at the spec's example rows. -/
theorem C3_validate_day_rows_witness :
    validate [[some "Day", some "New staff cases", some "New student cases"]] = validate []
    ∧ validate [[some "Day", some "Foo", some "Bar"]] = Except.error PyErr.assertionError
    ∧ validate [[some "Day", some "New staff cases", some "Bar"]]
        = Except.error PyErr.assertionError
    ∧ validate [[some "x", some "1"]]
        = (validate ([] : List (List (Option String)))).map
            ((pyStrip "x" :: ["1"].map pyStrip) :: ·) :=
  ⟨C3_validate_day_rows.1 "Day" "New staff cases" "New student cases" [] [] (by decide)
      (by decide) (by decide),
   C3_validate_day_rows.2.1 "Day" "Foo" [some "Bar"] [] (by decide) (by decide),
   C3_validate_day_rows.2.2.1 "Day" "New staff cases" "Bar" [] [] (by decide) (by decide)
      (by decide),
   C3_validate_day_rows.2.2.2 "x" ["1"] [] (by decide)⟩

/-- C4: for every validated row that `transform` accepts, the output
contains the row with its first cell parsed as a date and re-rendered
`YYYY-MM-DD` and every remaining cell parsed as a base-10 integer; in
particular `["11 October 2020", "5", "12"]` transforms to
`["2020-10-11", 5, 12]`. -/
theorem C4_transform_rows :
    (∀ (rows : List (List String)) (out : List (List Value)) (d : String)
        (cells : List String) (pd : PyDate) (vs : List Int),
        transform rows = Except.ok out → (d :: cells) ∈ rows →
        dateutil_parse d = some pd → cells.mapM pyInt = some vs →
        (Value.VStr (isoRender pd) :: vs.map Value.VInt) ∈ out)
    ∧ transform [["11 October 2020", "5", "12"]]
        = Except.ok [[Value.VStr "2020-10-11", Value.VInt 5, Value.VInt 12]] := by
  constructor
  · intro rows out d cells pd vs htr hmem hd hc
    obtain ⟨l, hl, hout⟩ := transform_eq_ok rows out htr
    obtain ⟨b, hb, hfb⟩ := mapM_ok_mem transformRow rows l (d :: cells) hl hmem
    rw [transformRow_ok d cells pd vs hd hc] at hfb
    have hbv := Except.ok.inj hfb
    rw [hout, hbv]
    exact ((pySorted_perm l).mem_iff).mpr hb
  · decide

/-- C4, witness at the spec's example row. -/
theorem C4_transform_rows_witness :
    [Value.VStr "2020-10-11", Value.VInt 5, Value.VInt 12]
      ∈ [[Value.VStr "2020-10-11", Value.VInt 5, Value.VInt 12]] :=
  C4_transform_rows.1 [["11 October 2020", "5", "12"]]
    [[Value.VStr "2020-10-11", Value.VInt 5, Value.VInt 12]]
    "11 October 2020" ["5", "12"] ⟨2020, 10, 11⟩ [5, 12]
    (by decide) (by decide) (by decide) (by decide)

/-- C5: when the input rows have pairwise-distinct dates, the output of
`transform` is strictly ascending in the leading ISO date string
(lexicographic, which is chronological for `YYYY-MM-DD`); in particular
the rows dated `"12 October 2020"` and `"11 October 2020"` come out with
`2020-10-11` before `2020-10-12` regardless of input order. -/
theorem C5_transform_sorted :
    (∀ (rows : List (List String)) (out : List (List Value)),
        transform rows = Except.ok out →
        (rows.map dateKey).Nodup →
        out.Pairwise (fun r s => ∃ a b, headDate r = some a ∧ headDate s = some b ∧
          strLtB a b = true))
    ∧ transform [["12 October 2020", "3", "4"], ["11 October 2020", "5", "12"]]
        = Except.ok [[Value.VStr "2020-10-11", Value.VInt 5, Value.VInt 12],
            [Value.VStr "2020-10-12", Value.VInt 3, Value.VInt 4]] := by
  constructor
  · intro rows out htr hnodup
    obtain ⟨l, hl, hout⟩ := transform_eq_ok rows out htr
    subst hout
    have hmapeq : l.map headDate = rows.map dateKey :=
      mapM_ok_map transformRow headDate dateKey (fun a b h => transformRow_headDate a b h)
        rows l hl
    have hnodup_l : (l.map headDate).Nodup := by rw [hmapeq]; exact hnodup
    have hperm : ((pySorted l).map headDate).Perm (l.map headDate) :=
      (pySorted_perm l).map headDate
    have hnodup_out : ((pySorted l).map headDate).Nodup := (hperm.nodup_iff).mpr hnodup_l
    have hne : (pySorted l).Pairwise (fun r s => headDate r ≠ headDate s) :=
      List.pairwise_map.mp hnodup_out
    have hand := (pySorted_sorted l).and hne
    refine List.Pairwise.imp_of_mem ?_ hand
    intro r s hr hs hrs
    have hr' : r ∈ l := ((pySorted_perm l).mem_iff).mp hr
    have hs' : s ∈ l := ((pySorted_perm l).mem_iff).mp hs
    obtain ⟨ar, _, hfr⟩ := mapM_ok_mem_rev transformRow rows l r hl hr'
    obtain ⟨as', _, hfs⟩ := mapM_ok_mem_rev transformRow rows l s hl hs'
    obtain ⟨dr, cr, pdr, vr, _, _, _, hbr⟩ := transformRow_shape ar r hfr
    obtain ⟨ds, cs2, pds, vs2, _, _, _, hbs⟩ := transformRow_shape as' s hfs
    subst hbr
    subst hbs
    obtain ⟨hle, hneq⟩ := hrs
    refine ⟨isoRender pdr, isoRender pds, rfl, rfl, ?_⟩
    simp only [rowLeP, rowLe, valueLt, Bool.or_eq_true, Bool.and_eq_true,
      decide_eq_true_eq] at hle
    rcases hle with h | ⟨heq, _⟩
    · exact h
    · exfalso
      apply hneq
      have hss := Value.VStr.inj heq
      simp [headDate, hss]
  · decide

/-- C5, witness at the spec's example rows. -/
theorem C5_transform_sorted_witness :
    List.Pairwise (fun r s => ∃ a b, headDate r = some a ∧ headDate s = some b ∧
        strLtB a b = true)
      [[Value.VStr "2020-10-11", Value.VInt 5, Value.VInt 12],
       [Value.VStr "2020-10-12", Value.VInt 3, Value.VInt 4]] :=
  C5_transform_sorted.1 [["12 October 2020", "3", "4"], ["11 October 2020", "5", "12"]]
    [[Value.VStr "2020-10-11", Value.VInt 5, Value.VInt 12],
     [Value.VStr "2020-10-12", Value.VInt 3, Value.VInt 4]]
    (by decide) (by decide)

/-- C6: for every table of non-header rows, `validate` maps each cell
through the asterisk strip; the strip removes exactly the single trailing
`'*'` from a cell ending in one (all other characters preserved, as
witnessed by re-appending `"*"` recovering the cell) and leaves any cell
not ending in `'*'` unchanged. -/
theorem C6_validate_strip :
    (∀ table : List (List String),
        (∀ r ∈ table, ∃ a rs, r = a :: rs ∧ pyInStr "Day" a = false) →
        validate (table.map (fun r => r.map some))
          = Except.ok (table.map (fun r => r.map pyStrip)))
    ∧ (∀ s : String, endsWithStar s = true → pyStrip s ++ "*" = s)
    ∧ (∀ s : String, endsWithStar s = false → pyStrip s = s) := by
  refine ⟨?_, pyStrip_star, pyStrip_nostar⟩
  intro table
  induction table with
  | nil => intro _; rfl
  | cons row rows ih =>
    intro h
    obtain ⟨a, rs, hrow, ha⟩ := h row (List.mem_cons_self row rows)
    have hrest : validate (rows.map (fun r => r.map some))
        = Except.ok (rows.map (fun r => r.map pyStrip)) :=
      ih (fun r hr => h r (List.mem_cons_of_mem row hr))
    subst hrow
    rw [List.map_cons, List.map_cons, List.map_cons, List.map_cons,
      validate_nonday a rs _ ha, hrest]
    rfl

/-- C6, witness at the spec's example row and cells. -/
theorem C6_validate_strip_witness :
    validate [[some "11 October 2020*", some "5*", some "12"]]
      = Except.ok [["11 October 2020", "5", "12"]]
    ∧ pyStrip "5*" ++ "*" = "5*"
    ∧ pyStrip "12" = "12" := by
  refine ⟨?_, C6_validate_strip.2.1 "5*" (by decide), C6_validate_strip.2.2 "12" (by decide)⟩
  have h := C6_validate_strip.1 [["11 October 2020*", "5*", "12"]] ?_
  · exact h
  · intro r hr
    have hr' : r = ["11 October 2020*", "5*", "12"] := by
      rcases List.mem_cons.mp hr with h' | h'
      · exact h'
      · exact absurd h' (List.not_mem_nil r)
    subst hr'
    exact ⟨"11 October 2020*", ["5*", "12"], rfl, by decide⟩

/-- C7, counterexample: the cell `"-5"` is not purely numeric (it contains
a character other than a base-10 digit), yet `transform` does not fail on
it — Python `int()` accepts a signed numeral — contradicting the claim
that `transform` raises exactly when a value cell contains any character
other than base-10 digits. -/
theorem C7_counterexample :
    transform [["2020-10-11", "-5"]]
      = Except.ok [[Value.VStr "2020-10-11", Value.VInt (-5)]]
    ∧ ("-5").toList.all Char.isDigit = false :=
  ⟨by decide, by decide⟩

/-- C7, amended: `transform` fails exactly when some input row is empty,
has a first cell `dateutil` cannot parse, or has a later cell that Python
`int()` cannot parse (optionally signed and whitespace-padded digits);
and every nonempty purely-digit cell is accepted by `int()`. -/
theorem C7_transform_failure_iff :
    (∀ rows : List (List String),
        (transform rows).isOk = false ↔
          ∃ row, row ∈ rows ∧ (row = [] ∨ ∃ d rest, row = d :: rest ∧
            (dateutil_parse d = none ∨ ∃ x, x ∈ rest ∧ pyInt x = none)))
    ∧ (∀ s : String, s.toList ≠ [] → s.toList.all Char.isDigit = true →
        (pyInt s).isSome = true) := by
  constructor
  · intro rows
    unfold transform
    rw [exceptMap_isOk, mapM_isOk_false_iff transformRow rows]
    constructor
    · rintro ⟨row, hmem, hfail⟩
      exact ⟨row, hmem, (transformRow_isOk_false row).mp hfail⟩
    · rintro ⟨row, hmem, hfail⟩
      exact ⟨row, hmem, (transformRow_isOk_false row).mpr hfail⟩
  · exact pyInt_digits

/-- C7, witness: a purely numeric cell parses, and a row with an
unparseable date makes `transform` fail. -/
theorem C7_transform_failure_iff_witness :
    (pyInt "12").isSome = true
    ∧ (transform [["garbage", "5"]]).isOk = false :=
  ⟨C7_transform_failure_iff.2 "12" (by decide) (by decide),
   (C7_transform_failure_iff.1 [["garbage", "5"]]).mpr
     ⟨["garbage", "5"], by decide, Or.inr ⟨"garbage", ["5"], rfl, Or.inl (by decide)⟩⟩⟩

/-- C8: the output of `heat_transform` is always sorted ascending by the
full row tuple with the weekday field first (`rowLeP` is the full-tuple
lexicographic order); on the example rows the Monday date 2020-10-12 is
emitted before the Sunday date 2020-10-11, so the output is not in
calendar order when weekday order differs from date order. -/
theorem C8_heat_sorted :
    (∀ (rows : List (List String)) (out : List (List Value)),
        heat_transform rows = Except.ok out → out.Pairwise rowLeP)
    ∧ heat_transform [["11 October 2020", "5", "12"], ["12 October 2020", "3", "4"]]
        = Except.ok [[Value.VStr "0", Value.VStr "2020-10-12", Value.VInt 3, Value.VInt 4],
            [Value.VStr "6", Value.VStr "2020-10-11", Value.VInt 5, Value.VInt 12]] := by
  constructor
  · intro rows out h
    obtain ⟨l, _, hout⟩ := heat_transform_eq_ok rows out h
    subst hout
    exact pySorted_sorted l
  · decide

/-- C8, witness at the example rows. -/
theorem C8_heat_sorted_witness :
    List.Pairwise rowLeP
      [[Value.VStr "0", Value.VStr "2020-10-12", Value.VInt 3, Value.VInt 4],
       [Value.VStr "6", Value.VStr "2020-10-11", Value.VInt 5, Value.VInt 12]] :=
  C8_heat_sorted.1 [["11 October 2020", "5", "12"], ["12 October 2020", "3", "4"]]
    [[Value.VStr "0", Value.VStr "2020-10-12", Value.VInt 3, Value.VInt 4],
     [Value.VStr "6", Value.VStr "2020-10-11", Value.VInt 5, Value.VInt 12]]
    (by decide)

/-- C9: on heat data whose records cover only Monday (weekday 0),
`np.bincount` yields a single bucket rather than a 7-column row, and the
7-column annotation loop of `create_heatmap` raises `IndexError` — the
grid does not include a column for every weekday 0–6.  When weekday 6 is
present the aggregation does produce the claimed 2×7
Students/Staff-by-weekday sums. -/
theorem C9_heatmap_missing_sunday :
    create_heatmap_grid [[Value.VStr "0", Value.VStr "2020-10-12", Value.VInt 3, Value.VInt 4]]
      = Except.error PyErr.indexError
    ∧ bincount [0] [3] = [3]
    ∧ create_heatmap_grid
        [[Value.VStr "6", Value.VStr "2020-10-11", Value.VInt 5, Value.VInt 12],
         [Value.VStr "0", Value.VStr "2020-10-12", Value.VInt 3, Value.VInt 4]]
      = Except.ok [[4, 0, 0, 0, 0, 0, 12], [3, 0, 0, 0, 0, 0, 5]] :=
  ⟨by decide, by decide, by decide⟩

/-- C10, counterexample: on the row `["Day", "Foo"]` — first cell contains
`"Day"`, fewer than three cells — `validate` raises the assertion error
(the failing `"New staff"` label check fires before `row[2]` is read),
not the `IndexError` the claim asserts for every short `"Day"` row. -/
theorem C10_counterexample :
    validate [[some "Day", some "Foo"]] = Except.error PyErr.assertionError := by
  decide

/-- C10, amended: a non-header row with a `None` first cell raises
`TypeError` and one with a `None` later cell raises `AttributeError`; an
empty row raises `IndexError`; a `"Day"` row with fewer than three cells
raises `IndexError` when the label cells that are present pass their
checks; and none of these errors is the documented `SchemaError`
(assertion error). -/
theorem C10_validate_errors :
    (∀ (row : List (Option String)) (table : List (List (Option String))),
        row.head? = some none → validate (row :: table) = Except.error PyErr.typeError)
    ∧ (∀ (a : String) (row : List (Option String)) (table : List (List (Option String))),
        row.head? = some (some a) → pyInStr "Day" a = false → none ∈ row →
        validate (row :: table) = Except.error PyErr.attributeError)
    ∧ (∀ table : List (List (Option String)),
        validate ([] :: table) = Except.error PyErr.indexError)
    ∧ (∀ a : String, pyInStr "Day" a = true →
        validate [[some a]] = Except.error PyErr.indexError)
    ∧ (∀ a b : String, pyInStr "Day" a = true → pyInStr "New staff" b = true →
        validate [[some a, some b]] = Except.error PyErr.indexError)
    ∧ PyErr.typeError ≠ PyErr.assertionError
    ∧ PyErr.attributeError ≠ PyErr.assertionError
    ∧ PyErr.indexError ≠ PyErr.assertionError :=
  ⟨fun row table h => validate_none_head row h table,
   fun a row table hh ha hm => validate_attr a row table hh ha hm,
   fun table => validate_empty_row table,
   fun a ha => validate_day_short1 a ha,
   fun a b ha hb => validate_day_short2 a b ha hb,
   by decide, by decide, by decide⟩

/-- C10, witness for the amended theorem at concrete rows. -/
theorem C10_validate_errors_witness :
    validate [[none, some "x"]] = Except.error PyErr.typeError
    ∧ validate [[some "abc", none]] = Except.error PyErr.attributeError
    ∧ validate [[]] = Except.error PyErr.indexError
    ∧ validate [[some "Day"]] = Except.error PyErr.indexError
    ∧ validate [[some "Day", some "New staff cases"]] = Except.error PyErr.indexError :=
  ⟨C10_validate_errors.1 [none, some "x"] [] (by decide),
   C10_validate_errors.2.1 "abc" [some "abc", none] [] (by decide) (by decide) (by decide),
   C10_validate_errors.2.2.1 [],
   C10_validate_errors.2.2.2.1 "Day" (by decide),
   C10_validate_errors.2.2.2.2.1 "Day" "New staff cases" (by decide) (by decide)⟩
